import Mathlib

/-!
Verification of the network data-repair and objective-reconstruction
pipeline of `pypsa_optimize_gurobi.py`.

The pipeline's tabular data (pandas DataFrames indexed by component name)
is embedded as Lean lists of records; numeric columns are embedded as
rationals.  Each Python function that the claims reference is translated
into an executable Lean definition, and the claims are settled as theorems
about those definitions.
-/

set_option autoImplicit false

namespace PypsaOpt

/-! ### String helpers

Python substring tests (`'PHS' in name`, `keyword in str(line).lower()`,
`Index.str.contains('offwind', case=False)`) are embedded as an explicit
character-list containment check, with `Char.toLower` mapped over the
characters for the case-insensitive variants. -/

/-- `charsStartWith s p` : the list `s` starts with the list `p`. -/
def charsStartWith : List Char → List Char → Bool
  | _, [] => true
  | [], _ :: _ => false
  | a :: as, b :: bs => a == b && charsStartWith as bs

/-- `charsContain s p` : the list `p` occurs contiguously inside `s`. -/
def charsContain : List Char → List Char → Bool
  | [], p => p.isEmpty
  | a :: as, p => charsStartWith (a :: as) p || charsContain as p

/-- Python `pat in s` (case-sensitive substring test). -/
def strContains (s pat : String) : Bool :=
  charsContain s.data pat.data

/-- Python `pat in s.lower()` for an already-lowercase `pat`
(case-insensitive substring test). -/
def strContainsLower (s pat : String) : Bool :=
  charsContain (s.data.map Char.toLower) pat.data

/-! ### Storage units and their normalization

`create_pypsa_network` loops over `network.storage_units.index` and rewrites
the rows of the storage-unit table. -/

/-- A row of the `network.storage_units` table (the columns the pipeline
touches). -/
structure StorageUnit where
  name : String
  cyclic_state_of_charge : Bool
  marginal_cost : ℚ
  marginal_cost_storage : ℚ
  spill_cost : ℚ
  efficiency_store : ℚ
  max_hours : ℚ
deriving DecidableEq, Repr

/-- The per-row update performed by the storage loop of
`create_pypsa_network`: the five unconditional assignments followed by the
`'PHS' in storage_name` / `'hydro' in storage_name` adjustment of
`max_hours`. -/
def normalizeStorageUnit (u : StorageUnit) : StorageUnit :=
  let u1 : StorageUnit :=
    { u with
      cyclic_state_of_charge := false
      marginal_cost := 0.01
      marginal_cost_storage := 0.01
      spill_cost := 0.1
      efficiency_store := 0.866025 }
  if strContains u.name "PHS" then { u1 with max_hours := 8 }
  else if strContains u.name "hydro" then { u1 with max_hours := 6 }
  else u1

/-- One iteration of the storage loop: the row(s) whose index equals the
visited name are rewritten in place (`.loc[storage_name, col] = v`). -/
def updateStorageNamed (m : String) (u : StorageUnit) : StorageUnit :=
  if u.name == m then normalizeStorageUnit u else u

/-- The storage-normalization loop of `create_pypsa_network`
(lines 101–127): iterate over the table's index, rewriting each visited
row in place. -/
def normalize_storage_units (us : List StorageUnit) : List StorageUnit :=
  (us.map StorageUnit.name).foldl (fun acc m => acc.map (updateStorageNamed m)) us

theorem normalizeStorageUnit_name (u : StorageUnit) :
    (normalizeStorageUnit u).name = u.name := by
  cases u
  simp only [normalizeStorageUnit]
  split
  · rfl
  · split <;> rfl

theorem normalizeStorageUnit_idem (u : StorageUnit) :
    normalizeStorageUnit (normalizeStorageUnit u) = normalizeStorageUnit u := by
  unfold normalizeStorageUnit
  by_cases h1 : strContains u.name "PHS" = true <;>
    by_cases h2 : strContains u.name "hydro" = true <;>
    simp [h1, h2]

theorem updateStorageNamed_normalized (m : String) (u : StorageUnit) :
    updateStorageNamed m (normalizeStorageUnit u) = normalizeStorageUnit u := by
  unfold updateStorageNamed
  split
  · exact normalizeStorageUnit_idem u
  · rfl

/-- Folding the per-name updates over any list of names rewrites exactly the
units whose name occurs in the list. -/
theorem foldl_updateStorage_eq_map (ns : List String) (us : List StorageUnit) :
    ns.foldl (fun acc m => acc.map (updateStorageNamed m)) us
      = us.map (fun u => if u.name ∈ ns then normalizeStorageUnit u else u) := by
  induction ns generalizing us with
  | nil => simp
  | cons m ms ih =>
    simp only [List.foldl_cons, ih, List.map_map]
    apply List.map_congr_left
    intro u _
    simp only [Function.comp_apply, updateStorageNamed]
    by_cases hm : u.name = m
    · have h1 : (u.name == m) = true := by simp [hm]
      simp only [h1, if_pos rfl]
      by_cases hms : (normalizeStorageUnit u).name ∈ ms
      · simp [hm, hms, normalizeStorageUnit_idem, List.mem_cons]
      · simp [hm, hms, List.mem_cons]
    · have h1 : (u.name == m) = false := by simp [hm]
      simp only [h1, Bool.false_eq_true, if_false]
      by_cases hms : u.name ∈ ms
      · simp [List.mem_cons, hms]
      · simp [List.mem_cons, hms, hm]

/-- The loop is equivalent to mapping the per-row update over the table. -/
theorem normalize_storage_units_eq_map (us : List StorageUnit) :
    normalize_storage_units us = us.map normalizeStorageUnit := by
  unfold normalize_storage_units
  rw [foldl_updateStorage_eq_map]
  apply List.map_congr_left
  intro u hu
  rw [if_pos (List.mem_map_of_mem StorageUnit.name hu)]

/-! ### The network model

The tables of a loaded PyPSA network that the pipeline reads or writes.
`hasExtendableCol` records whether `'s_nom_extendable'` is among the
columns of the `network.lines` table; when it is `false` the
`s_nom_extendable` field of each `Line` is phantom (the column does not
exist yet). -/

/-- A row of the `network.loads` table. -/
structure Load where
  name : String
  bus : String
deriving DecidableEq, Repr

/-- A row of the `network.lines` table (the columns the pipeline touches). -/
structure Line where
  name : String
  bus0 : String
  bus1 : String
  s_nom : ℚ
  s_nom_extendable : Bool
deriving DecidableEq, Repr

/-- A row of the `network.generators` table (the columns the pipeline
reads). -/
structure Generator where
  name : String
  p_nom : ℚ
  control : String
  carrier : String
deriving DecidableEq, Repr

/-- The in-memory network: tables indexed by component name, and
time-series tables as association lists from component name to the
per-snapshot column. -/
structure Network where
  buses : List String
  lines : List Line
  hasExtendableCol : Bool
  loads : List Load
  loads_t_p_set : List (String × List ℚ)
  generators : List Generator
  generators_t : List (String × List ℚ)
  storage_units : List StorageUnit
deriving DecidableEq, Repr

/-! ### Synthetic-line detection (`fix_artificial_lines_reasonable`) -/

/-- The reserved keywords of the artificial-line name pattern. -/
def artificialKeywords : List String := ["new", "<->", "artificial"]

/-- `any(keyword in str(line).lower() for keyword in [...])`. -/
def isArtificialName (name : String) : Bool :=
  artificialKeywords.any (fun k => strContainsLower name k)

/-- The lines whose identifier matches the keyword pattern. -/
def keywordLineNames (n : Network) : List String :=
  (n.lines.filter (fun l => isArtificialName l.name)).map Line.name

/-- The lines whose capacity is exactly zero (`network.lines.s_nom == 0`). -/
def zeroCapacityLineNames (n : Network) : List String :=
  (n.lines.filter (fun l => l.s_nom = 0)).map Line.name

/-- The artificial-line detection of `fix_artificial_lines_reasonable`:
keyword match first; only when no line matches any keyword, fall back to
the zero-capacity lines. -/
def artificialLineNames (n : Network) : List String :=
  let byName := keywordLineNames n
  if byName.isEmpty then zeroCapacityLineNames n else byName

/-! ### Peak demand per bus -/

/-- Pandas `Series.max()`: `none` on an empty column (NaN), which the
surrounding Python `max` ignores. -/
def seriesMax (l : List ℚ) : Option ℚ := l.max?

/-- The `bus_max_demand` entry for one bus: fold over the rows of
`network.loads`, taking the running maximum (starting from 0) of the peak
of each load attached to the bus whose name is a column of
`network.loads_t.p_set`. -/
def busPeakDemand (loads : List Load) (pset : List (String × List ℚ))
    (b : String) : ℚ :=
  loads.foldl (fun acc ld =>
    if ld.bus == b then
      match pset.lookup ld.name with
      | some ser =>
        match seriesMax ser with
        | some m => max acc m
        | none => acc
      | none => acc
    else acc) 0

/-- `bus_max_demand.get(bus, 0)`: the dictionary holds an entry for every
bus of `network.buses.index`, and a missing bus defaults to 0. -/
def demandAt (n : Network) (b : String) : ℚ :=
  if n.buses.contains b then busPeakDemand n.loads n.loads_t_p_set b else 0

/-! ### The capacity fix -/

/-- `required_capacity = max(max(bus0_demand, bus1_demand) * 3.0, 1000)`. -/
def requiredCapacity (pd : String → ℚ) (l : Line) : ℚ :=
  max (max (pd l.bus0) (pd l.bus1) * 3) 1000

/-- The per-row effect of one loop iteration of
`fix_artificial_lines_reasonable` on the `network.lines` table: write
`s_nom` at the visited name, create the `s_nom_extendable` column (all
`false`) when absent, then write `s_nom_extendable = false` at the visited
name. -/
def fixLineRow (hasCol : Bool) (lname : String) (req : ℚ) (x : Line) : Line :=
  let x1 := if x.name == lname then { x with s_nom := req } else x
  let x2 := if hasCol then x1 else { x1 with s_nom_extendable := false }
  if x.name == lname then { x2 with s_nom_extendable := false } else x2

/-- One iteration of the fixing loop for the visited line name: look the
row up (`.loc[line_name, 'bus0'/'bus1']`), compute the required capacity
from the endpoint peak demands, and rewrite the table. -/
def fixOneLine (pd : String → ℚ) (n : Network) (lname : String) : Network :=
  match n.lines.find? (fun l => l.name == lname) with
  | none => n
  | some l0 =>
    { n with
      hasExtendableCol := true
      lines := n.lines.map
        (fixLineRow n.hasExtendableCol lname (requiredCapacity pd l0)) }

/-- `fix_artificial_lines_reasonable`: detect the artificial lines, compute
the per-bus peak demands from the unmodified network, then fix each
detected line in turn. -/
def fix_artificial_lines_reasonable (n : Network) : Network :=
  (artificialLineNames n).foldl (fixOneLine (demandAt n)) n

/-! ### Structural lemmas for the capacity fixer -/

theorem nodup_names_inj {l : List Line} (hnd : (l.map Line.name).Nodup)
    {x y : Line} (hx : x ∈ l) (hy : y ∈ l) (h : x.name = y.name) : x = y :=
  List.inj_on_of_nodup_map hnd hx hy h

theorem find_name_eq (l : List Line) (hnd : (l.map Line.name).Nodup)
    (x : Line) (hx : x ∈ l) :
    l.find? (fun y => y.name == x.name) = some x := by
  induction l with
  | nil => cases hx
  | cons a t ih =>
    simp only [List.map_cons, List.nodup_cons] at hnd
    rcases List.mem_cons.mp hx with h | h
    · subst h
      exact List.find?_cons_of_pos _ (by simp)
    · have hne : (a.name == x.name) = false := by
        simp only [beq_eq_false_iff_ne, ne_eq]
        intro he
        exact hnd.1 (he ▸ List.mem_map_of_mem Line.name h)
      rw [List.find?_cons_of_neg _ (by simp [hne]), ih hnd.2 h]

theorem fixLineRow_name (hasCol : Bool) (lname : String) (req : ℚ)
    (x : Line) : (fixLineRow hasCol lname req x).name = x.name := by
  cases x
  simp only [fixLineRow]
  repeat' split
  all_goals rfl

theorem fixLineRow_of_name_eq (hasCol : Bool) (lname : String) (req : ℚ)
    (x : Line) (h : x.name = lname) :
    fixLineRow hasCol lname req x
      = { x with s_nom := req, s_nom_extendable := false } := by
  have hb : (x.name == lname) = true := by simpa using h
  cases x
  by_cases hc : hasCol <;> simp [fixLineRow, hb, hc]

theorem fixLineRow_of_name_ne (hasCol : Bool) (lname : String) (req : ℚ)
    (x : Line) (h : ¬x.name = lname) :
    fixLineRow hasCol lname req x
      = if hasCol then x else { x with s_nom_extendable := false } := by
  have hb : (x.name == lname) = false := by simpa using h
  cases x
  by_cases hc : hasCol <;> simp [fixLineRow, hb, hc]

/-- The cumulative per-row effect of fixing every line named in `arts`. -/
def fixedLineShape (pd : String → ℚ) (arts : List String) (hasCol : Bool)
    (x : Line) : Line :=
  if x.name ∈ arts then
    { x with s_nom := requiredCapacity pd x, s_nom_extendable := false }
  else if hasCol then x else { x with s_nom_extendable := false }

theorem requiredCapacity_congr (pd : String → ℚ) {x y : Line}
    (h0 : x.bus0 = y.bus0) (h1 : x.bus1 = y.bus1) :
    requiredCapacity pd x = requiredCapacity pd y := by
  simp [requiredCapacity, h0, h1]

theorem fixedLineShape_comp (pd : String → ℚ) (n : Network) (x0 : Line)
    (hx0 : x0 ∈ n.lines) (hnd : (n.lines.map Line.name).Nodup)
    (ms : List String) (x : Line) (hx : x ∈ n.lines) :
    fixedLineShape pd ms true
        (fixLineRow n.hasExtendableCol x0.name (requiredCapacity pd x0) x)
      = fixedLineShape pd (x0.name :: ms) n.hasExtendableCol x := by
  by_cases he : x.name = x0.name
  · have hxx : x = x0 := nodup_names_inj hnd hx hx0 he
    subst hxx
    rw [fixLineRow_of_name_eq _ _ _ _ rfl]
    by_cases hm : x.name ∈ ms <;>
      simp [fixedLineShape, hm, requiredCapacity, List.mem_cons]
  · rw [fixLineRow_of_name_ne _ _ _ _ he]
    by_cases hc : n.hasExtendableCol = true <;>
      by_cases hm : x.name ∈ ms <;>
      simp [fixedLineShape, hc, hm, he, requiredCapacity, List.mem_cons]

theorem fixOneLine_found (pd : String → ℚ) (n : Network) (x0 : Line)
    (hx0 : x0 ∈ n.lines) (hnd : (n.lines.map Line.name).Nodup) :
    fixOneLine pd n x0.name =
      { n with
        hasExtendableCol := true
        lines := n.lines.map
          (fixLineRow n.hasExtendableCol x0.name (requiredCapacity pd x0)) } := by
  unfold fixOneLine
  rw [find_name_eq n.lines hnd x0 hx0]

theorem names_map_fixLineRow (l : List Line) (hasCol : Bool)
    (lname : String) (req : ℚ) :
    (l.map (fixLineRow hasCol lname req)).map Line.name = l.map Line.name := by
  rw [List.map_map]
  exact List.map_congr_left (fun x _ => fixLineRow_name hasCol lname req x)

/-- Closed form of the fixing loop, for any list of names that all occur in
the (duplicate-free) line index. -/
theorem foldl_fixOneLine_closed (pd : String → ℚ) (ns : List String) :
    ∀ n : Network, (∀ m ∈ ns, m ∈ n.lines.map Line.name) →
      (n.lines.map Line.name).Nodup →
      ns.foldl (fixOneLine pd) n =
        if ns.isEmpty then n
        else { n with
               hasExtendableCol := true
               lines := n.lines.map
                 (fixedLineShape pd ns n.hasExtendableCol) } := by
  induction ns with
  | nil => intro n _ _; rfl
  | cons m ms ih =>
    intro n hmem hnd
    obtain ⟨x0, hx0, hx0name⟩ :=
      List.mem_map.mp (hmem m (List.mem_cons_self m ms))
    subst hx0name
    have hstep := fixOneLine_found pd n x0 hx0 hnd
    simp only [List.foldl_cons, hstep, List.isEmpty_cons, Bool.false_eq_true,
      if_false]
    set n1 : Network :=
      { n with
        hasExtendableCol := true
        lines := n.lines.map
          (fixLineRow n.hasExtendableCol x0.name (requiredCapacity pd x0)) } with hn1
    have hnames1 : n1.lines.map Line.name = n.lines.map Line.name :=
      names_map_fixLineRow n.lines n.hasExtendableCol x0.name _
    have hmem1 : ∀ m' ∈ ms, m' ∈ n1.lines.map Line.name := by
      intro m' hm'
      rw [hnames1]
      exact hmem m' (List.mem_cons_of_mem _ hm')
    have hnd1 : (n1.lines.map Line.name).Nodup := by rw [hnames1]; exact hnd
    rw [ih n1 hmem1 hnd1]
    have hcomp : n1.lines.map (fixedLineShape pd ms true)
        = n.lines.map (fixedLineShape pd (x0.name :: ms) n.hasExtendableCol) := by
      show (n.lines.map _).map _ = _
      rw [List.map_map]
      exact List.map_congr_left
        (fun x hx => fixedLineShape_comp pd n x0 hx0 hnd ms x hx)
    by_cases hms : ms.isEmpty
    · have hms' : ms = [] := List.isEmpty_iff.mp hms
      subst hms'
      simp only [List.isEmpty_nil, if_true]
      have hids : n1.lines.map (fixedLineShape pd ([] : List String) true)
          = n1.lines :=
        (List.map_congr_left fun x _ => by
          simp [fixedLineShape]).trans (List.map_id _)
      have hlines : n.lines.map
            (fixLineRow n.hasExtendableCol x0.name (requiredCapacity pd x0))
          = n.lines.map (fixedLineShape pd [x0.name] n.hasExtendableCol) :=
        hids.symm.trans hcomp
      rw [hn1, hlines]
    · simp only [hms, Bool.false_eq_true, if_false]
      have hcomp' : (n.lines.map
            (fixLineRow n.hasExtendableCol x0.name (requiredCapacity pd x0))).map
              (fixedLineShape pd ms true)
          = n.lines.map (fixedLineShape pd (x0.name :: ms) n.hasExtendableCol) :=
        hcomp
      rw [hcomp']

theorem filter_names_subset (l : List Line) (p : Line → Bool) :
    ∀ m ∈ (l.filter p).map Line.name, m ∈ l.map Line.name := by
  intro m hm
  obtain ⟨x, hx, rfl⟩ := List.mem_map.mp hm
  exact List.mem_map_of_mem _ (List.mem_of_mem_filter hx)

theorem artificialLineNames_subset (n : Network) :
    ∀ m ∈ artificialLineNames n, m ∈ n.lines.map Line.name := by
  intro m hm
  simp only [artificialLineNames] at hm
  split at hm
  · exact filter_names_subset n.lines _ m hm
  · exact filter_names_subset n.lines _ m hm

/-- Closed form of `fix_artificial_lines_reasonable` on a network whose
line index is duplicate-free. -/
theorem fix_closed (n : Network) (hnd : (n.lines.map Line.name).Nodup) :
    fix_artificial_lines_reasonable n =
      if (artificialLineNames n).isEmpty then n
      else { n with
             hasExtendableCol := true
             lines := n.lines.map (fixedLineShape (demandAt n)
               (artificialLineNames n) n.hasExtendableCol) } :=
  foldl_fixOneLine_closed (demandAt n) (artificialLineNames n) n
    (artificialLineNames_subset n) hnd

theorem fixedLineShape_name (pd : String → ℚ) (arts : List String)
    (hasCol : Bool) (x : Line) :
    (fixedLineShape pd arts hasCol x).name = x.name := by
  simp only [fixedLineShape]
  repeat' split
  all_goals rfl

theorem fix_lines_names (n : Network) (hnd : (n.lines.map Line.name).Nodup) :
    (fix_artificial_lines_reasonable n).lines.map Line.name
      = n.lines.map Line.name := by
  rw [fix_closed n hnd]
  split
  · rfl
  · rw [List.map_map]
    exact List.map_congr_left (fun x _ => fixedLineShape_name _ _ _ x)

theorem fix_frame_fields (n : Network) (hnd : (n.lines.map Line.name).Nodup) :
    (fix_artificial_lines_reasonable n).buses = n.buses ∧
    (fix_artificial_lines_reasonable n).loads = n.loads ∧
    (fix_artificial_lines_reasonable n).loads_t_p_set = n.loads_t_p_set ∧
    (fix_artificial_lines_reasonable n).generators = n.generators ∧
    (fix_artificial_lines_reasonable n).generators_t = n.generators_t ∧
    (fix_artificial_lines_reasonable n).storage_units = n.storage_units := by
  rw [fix_closed n hnd]
  split <;> exact ⟨rfl, rfl, rfl, rfl, rfl, rfl⟩

theorem demandAt_fix (n : Network) (hnd : (n.lines.map Line.name).Nodup) :
    demandAt (fix_artificial_lines_reasonable n) = demandAt n := by
  funext b
  rw [fix_closed n hnd]
  split <;> rfl

theorem filter_map_name_congr (p : String → Bool) (l : List Line) :
    ∀ l' : List Line, l.map Line.name = l'.map Line.name →
      (l.filter (fun x => p x.name)).map Line.name
        = (l'.filter (fun x => p x.name)).map Line.name := by
  induction l with
  | nil =>
    intro l' h
    cases l' with
    | nil => rfl
    | cons b t => simp at h
  | cons a s ih =>
    intro l' h
    cases l' with
    | nil => simp at h
    | cons b t =>
      simp only [List.map_cons, List.cons.injEq] at h
      obtain ⟨hname, htail⟩ := h
      simp only [List.filter_cons, hname]
      by_cases hp : p b.name
      · simp only [hp, if_true, List.map_cons, hname, ih t htail]
      · simp only [hp, Bool.false_eq_true, if_false, ih t htail]

theorem keywordLineNames_fix (n : Network)
    (hnd : (n.lines.map Line.name).Nodup) :
    keywordLineNames (fix_artificial_lines_reasonable n) = keywordLineNames n := by
  unfold keywordLineNames
  exact filter_map_name_congr isArtificialName _ _ (fix_lines_names n hnd)

theorem fixedLineShape_s_nom_mem (pd : String → ℚ) (arts : List String)
    (hasCol : Bool) (x : Line) (h : x.name ∈ arts) :
    (fixedLineShape pd arts hasCol x).s_nom = requiredCapacity pd x := by
  simp [fixedLineShape, h]

theorem fixedLineShape_ext_mem (pd : String → ℚ) (arts : List String)
    (hasCol : Bool) (x : Line) (h : x.name ∈ arts) :
    (fixedLineShape pd arts hasCol x).s_nom_extendable = false := by
  simp [fixedLineShape, h]

theorem fixedLineShape_s_nom_not_mem (pd : String → ℚ) (arts : List String)
    (hasCol : Bool) (x : Line) (h : x.name ∉ arts) :
    (fixedLineShape pd arts hasCol x).s_nom = x.s_nom := by
  by_cases hc : hasCol = true <;> simp [fixedLineShape, h, hc]

theorem fixedLineShape_ext_not_mem (pd : String → ℚ) (arts : List String)
    (hasCol : Bool) (x : Line) (h : x.name ∉ arts) :
    (fixedLineShape pd arts hasCol x).s_nom_extendable
      = if hasCol then x.s_nom_extendable else false := by
  by_cases hc : hasCol = true <;> simp [fixedLineShape, h, hc]

theorem fixedLineShape_idem (pd : String → ℚ) (arts : List String)
    (hasCol : Bool) (x : Line) :
    fixedLineShape pd arts true (fixedLineShape pd arts hasCol x)
      = fixedLineShape pd arts hasCol x := by
  by_cases hm : x.name ∈ arts <;> by_cases hc : hasCol = true <;>
    simp [fixedLineShape, hm, hc, requiredCapacity]

theorem requiredCapacity_ge (pd : String → ℚ) (x : Line) :
    (1000 : ℚ) ≤ requiredCapacity pd x :=
  le_max_right _ _

theorem artificialLineNames_of_kw_empty (n : Network)
    (h : (keywordLineNames n).isEmpty = true) :
    artificialLineNames n = zeroCapacityLineNames n := by
  simp [artificialLineNames, h]

theorem artificialLineNames_of_kw_nonempty (n : Network)
    (h : (keywordLineNames n).isEmpty = false) :
    artificialLineNames n = keywordLineNames n := by
  simp [artificialLineNames, h]

theorem fix_of_no_artificial (n : Network) (h : artificialLineNames n = []) :
    fix_artificial_lines_reasonable n = n := by
  unfold fix_artificial_lines_reasonable
  rw [h]
  rfl

theorem update_eta (n : Network) (hc : Bool) (ls : List Line)
    (h1 : hc = n.hasExtendableCol) (h2 : ls = n.lines) :
    ({ n with
       hasExtendableCol := hc
       lines := ls } : Network) = n := by
  subst h1; subst h2; rfl

theorem mem_zeroCapacityLineNames (n : Network) (x : Line)
    (hx : x ∈ n.lines) (h : x.s_nom = 0) :
    x.name ∈ zeroCapacityLineNames n := by
  exact List.mem_map_of_mem _ (List.mem_filter.mpr ⟨hx, by simp [h]⟩)

/-- Applying the fixer twice gives the same network as applying it once. -/
theorem fix_idem_aux (n : Network) (hnd : (n.lines.map Line.name).Nodup) :
    fix_artificial_lines_reasonable (fix_artificial_lines_reasonable n)
      = fix_artificial_lines_reasonable n := by
  set n1 := fix_artificial_lines_reasonable n with hn1
  have hnd1 : (n1.lines.map Line.name).Nodup := by
    rw [hn1, fix_lines_names n hnd]; exact hnd
  have hkw1 : keywordLineNames n1 = keywordLineNames n :=
    keywordLineNames_fix n hnd
  by_cases hk : (keywordLineNames n).isEmpty = true
  · -- keyword detection finds nothing: fallback to zero-capacity lines
    have hkz : keywordLineNames n = [] := List.isEmpty_iff.mp hk
    have harts : artificialLineNames n = zeroCapacityLineNames n :=
      artificialLineNames_of_kw_empty n hk
    by_cases hz : (zeroCapacityLineNames n).isEmpty = true
    · -- nothing detected at all: both runs are no-ops
      have h0 : artificialLineNames n = [] := by
        rw [harts]; exact List.isEmpty_iff.mp hz
      rw [hn1, fix_of_no_artificial n h0, fix_of_no_artificial n h0]
    · -- first run fixed all zero-capacity lines; second run detects nothing
      have hne : (artificialLineNames n).isEmpty = false := by
        rw [harts]; simpa using hz
      have hcl : n1 = { n with
          hasExtendableCol := true
          lines := n.lines.map (fixedLineShape (demandAt n)
            (artificialLineNames n) n.hasExtendableCol) } := by
        rw [hn1, fix_closed n hnd, hne]
        simp
      have hz1 : zeroCapacityLineNames n1 = [] := by
        unfold zeroCapacityLineNames
        have hfil : n1.lines.filter (fun l => l.s_nom = 0) = [] := by
          rw [List.filter_eq_nil_iff]
          intro y hy
          rw [hcl] at hy
          obtain ⟨x, hx, rfl⟩ := List.mem_map.mp hy
          by_cases hm : x.name ∈ artificialLineNames n
          · rw [fixedLineShape_s_nom_mem _ _ _ _ hm]
            have := requiredCapacity_ge (demandAt n) x
            simp only [decide_eq_true_eq]
            intro h0
            rw [h0] at this
            norm_num at this
          · rw [fixedLineShape_s_nom_not_mem _ _ _ _ hm]
            simp only [decide_eq_true_eq]
            intro h0
            exact hm (harts ▸ mem_zeroCapacityLineNames n x hx h0)
        rw [hfil]
        rfl
      have harts1 : artificialLineNames n1 = [] := by
        rw [artificialLineNames_of_kw_empty n1 (by rw [hkw1, hkz]; rfl), hz1]
      exact fix_of_no_artificial n1 harts1
  · -- keyword detection fires on both runs with the same names
    have hkf : (keywordLineNames n).isEmpty = false := by
      simpa using hk
    have harts : artificialLineNames n = keywordLineNames n :=
      artificialLineNames_of_kw_nonempty n hkf
    have hne : (artificialLineNames n).isEmpty = false := by
      rw [harts]; exact hkf
    have hcl : n1 = { n with
        hasExtendableCol := true
        lines := n.lines.map (fixedLineShape (demandAt n)
          (artificialLineNames n) n.hasExtendableCol) } := by
      rw [hn1, fix_closed n hnd, hne]
      simp
    have harts1 : artificialLineNames n1 = artificialLineNames n := by
      rw [artificialLineNames_of_kw_nonempty n1 (by rw [hkw1]; exact hkf),
        hkw1, harts]
    have hpd1 : demandAt n1 = demandAt n := by
      rw [hn1]; exact demandAt_fix n hnd
    have hext1 : n1.hasExtendableCol = true := by rw [hcl]
    have hlines1 : n1.lines.map (fixedLineShape (demandAt n)
        (artificialLineNames n) true) = n1.lines := by
      rw [hcl]
      rw [List.map_map]
      exact List.map_congr_left (fun x _ => fixedLineShape_idem _ _ _ x)
    rw [fix_closed n1 hnd1, harts1, hne]
    simp only [Bool.false_eq_true, if_false]
    rw [hpd1, hext1]
    exact update_eta n1 true _ hext1.symm hlines1

/-! ### Offshore-wind generator pruning (`remove_offshore_wind`) -/

/-- `network.generators.index.str.contains('offwind', case=False)`. -/
def isOffwindName (name : String) : Bool :=
  strContainsLower name "offwind"

/-- The index selection of `remove_offshore_wind`. -/
def offwindGeneratorNames (n : Network) : List String :=
  (n.generators.filter (fun g => isOffwindName g.name)).map Generator.name

/-- Modelled from the spec: `network.remove("Generator", name)` is supplied
by the external PyPSA engine (out of scope of this repository); per the
spec, removal fully deletes the generator's entry from the generator table
and from every time-series table keyed by that identifier. -/
def removeGenerator (n : Network) (gname : String) : Network :=
  { n with
    generators := n.generators.filter (fun g => ¬g.name = gname)
    generators_t := n.generators_t.filter (fun c => ¬c.1 = gname) }

/-- `remove_offshore_wind`: select the offshore-wind generators and remove
them one by one. -/
def remove_offshore_wind (n : Network) : Network :=
  (offwindGeneratorNames n).foldl removeGenerator n

theorem update_gens_eta (n : Network) (gs : List Generator)
    (ts : List (String × List ℚ)) (h1 : gs = n.generators)
    (h2 : ts = n.generators_t) :
    ({ n with
       generators := gs
       generators_t := ts } : Network) = n := by
  subst h1; subst h2; rfl

theorem foldl_removeGenerator_closed (ns : List String) :
    ∀ n : Network, ns.foldl removeGenerator n =
      { n with
        generators := n.generators.filter (fun g => ¬g.name ∈ ns)
        generators_t := n.generators_t.filter (fun c => ¬c.1 ∈ ns) } := by
  induction ns with
  | nil =>
    intro n
    have h1 : n.generators.filter (fun g => ¬g.name ∈ ([] : List String))
        = n.generators := List.filter_eq_self.mpr (by simp)
    have h2 : n.generators_t.filter (fun c => ¬c.1 ∈ ([] : List String))
        = n.generators_t := List.filter_eq_self.mpr (by simp)
    rw [List.foldl_nil]
    exact (update_gens_eta n _ _ h1 h2).symm
  | cons m ms ih =>
    intro n
    rw [List.foldl_cons, ih]
    simp only [removeGenerator, List.filter_filter]
    congr 1
    · apply List.filter_congr
      intro g _
      rw [Bool.and_comm]
      simp [List.mem_cons, not_or]
    · apply List.filter_congr
      intro c _
      rw [Bool.and_comm]
      simp [List.mem_cons, not_or]

/-! ### Objective reconstruction

The post-optimization loop (`total_objective = 0.0; for snapshot in
network.snapshots: ...`) reads the populated result time series.  One row
per snapshot: its objective weighting and, per component table, the
per-component values at that snapshot, positionally aligned with the cost
columns.  `has_spill` embeds `hasattr(network.storage_units_t, 'spill')`.
The storage cost columns (`marginal_cost`, `marginal_cost_storage`,
`spill_cost`) are one row per storage unit, so the table's row count is
their common length. -/

/-- The rows of the result time series at one snapshot. -/
structure ObjSnapshot where
  weight : ℚ
  gen_p : List ℚ
  st_p_dispatch : List ℚ
  st_p_store : List ℚ
  st_spill : List ℚ
deriving DecidableEq, Repr

/-- The per-unit storage cost columns read by the reconstruction loop. -/
structure StorageCostRow where
  marginal_cost : ℚ
  marginal_cost_storage : ℚ
  spill_cost : ℚ
deriving DecidableEq, Repr

/-- The state the reconstruction loop reads: snapshots with their result
rows, the generator `marginal_cost` column, the storage-unit cost table,
and whether the solver populated spill data. -/
structure OptResult where
  snapshots : List ObjSnapshot
  gen_marginal_cost : List ℚ
  storage_units : List StorageCostRow
  has_spill : Bool
deriving DecidableEq, Repr

/-- Pandas `(costs * series).sum()` on positionally aligned columns. -/
def dotSum (costs vals : List ℚ) : ℚ := (List.zipWith (· * ·) costs vals).sum

/-- The loop body for one snapshot: add the weighted generator cost when
the model has generators; when it has storage units, add the weighted
dispatch and store costs, and the weighted spill cost when spill data
exists. -/
def snapshotStep (r : OptResult) (acc : ℚ) (s : ObjSnapshot) : ℚ :=
  let a1 := if 0 < r.gen_marginal_cost.length then
      acc + dotSum r.gen_marginal_cost s.gen_p * s.weight
    else acc
  if 0 < r.storage_units.length then
    let b1 := a1 + dotSum (r.storage_units.map StorageCostRow.marginal_cost)
        s.st_p_dispatch * s.weight
    let b2 := b1 + dotSum (r.storage_units.map StorageCostRow.marginal_cost_storage)
        s.st_p_store * s.weight
    if r.has_spill then
      b2 + dotSum (r.storage_units.map StorageCostRow.spill_cost)
        s.st_spill * s.weight
    else b2
  else a1

/-- `total_objective`: fold the per-snapshot accumulation over all
snapshots starting from `0.0`. -/
def total_objective (r : OptResult) : ℚ :=
  r.snapshots.foldl (snapshotStep r) 0

/-- Modelled from the spec (for refinement comparison): the objective
formula of §4.5, `Σ_s weight(s) × (Σ_g mc·dispatch + Σ_u mc·p_dispatch +
Σ_u mcs·p_store + [only if spill data exists] Σ_u sc·spill)`. -/
def specObjective (r : OptResult) : ℚ :=
  (r.snapshots.map (fun s =>
    s.weight * (dotSum r.gen_marginal_cost s.gen_p
      + dotSum (r.storage_units.map StorageCostRow.marginal_cost) s.st_p_dispatch
      + dotSum (r.storage_units.map StorageCostRow.marginal_cost_storage) s.st_p_store
      + (if r.has_spill then
          dotSum (r.storage_units.map StorageCostRow.spill_cost) s.st_spill
        else 0)))).sum

/-- The spec formula without its spill term. -/
def baseObjective (r : OptResult) : ℚ :=
  (r.snapshots.map (fun s =>
    s.weight * (dotSum r.gen_marginal_cost s.gen_p
      + dotSum (r.storage_units.map StorageCostRow.marginal_cost) s.st_p_dispatch
      + dotSum (r.storage_units.map StorageCostRow.marginal_cost_storage)
          s.st_p_store))).sum

/-- The weighted spill term of the spec formula. -/
def spillObjective (r : OptResult) : ℚ :=
  (r.snapshots.map (fun s =>
    s.weight * dotSum (r.storage_units.map StorageCostRow.spill_cost)
      s.st_spill)).sum

theorem dotSum_nil (vals : List ℚ) : dotSum [] vals = 0 := by
  cases vals <;> rfl

theorem snapshotStep_eq (r : OptResult) (acc : ℚ) (s : ObjSnapshot) :
    snapshotStep r acc s
      = acc + s.weight * (dotSum r.gen_marginal_cost s.gen_p
          + dotSum (r.storage_units.map StorageCostRow.marginal_cost) s.st_p_dispatch
          + dotSum (r.storage_units.map StorageCostRow.marginal_cost_storage) s.st_p_store
          + (if r.has_spill then
              dotSum (r.storage_units.map StorageCostRow.spill_cost) s.st_spill
            else 0)) := by
  unfold snapshotStep
  by_cases hg : 0 < r.gen_marginal_cost.length <;>
    by_cases hs : 0 < r.storage_units.length <;>
    by_cases hsp : r.has_spill = true <;>
    simp only [hg, hs, hsp, if_true, if_false, Bool.false_eq_true]
  all_goals
    try rw [List.eq_nil_of_length_eq_zero (Nat.eq_zero_of_not_pos hg)]
  all_goals
    try rw [List.eq_nil_of_length_eq_zero (Nat.eq_zero_of_not_pos hs)]
  all_goals try simp only [List.map_nil, dotSum_nil]
  all_goals ring

theorem foldl_step_eq_sum (r : OptResult) (l : List ObjSnapshot) :
    ∀ a : ℚ, l.foldl (snapshotStep r) a
      = a + (l.map (fun s =>
          s.weight * (dotSum r.gen_marginal_cost s.gen_p
            + dotSum (r.storage_units.map StorageCostRow.marginal_cost) s.st_p_dispatch
            + dotSum (r.storage_units.map StorageCostRow.marginal_cost_storage) s.st_p_store
            + (if r.has_spill then
                dotSum (r.storage_units.map StorageCostRow.spill_cost) s.st_spill
              else 0)))).sum := by
  induction l with
  | nil => intro a; simp
  | cons s t ih =>
    intro a
    rw [List.foldl_cons, ih, snapshotStep_eq]
    simp only [List.map_cons, List.sum_cons]
    ring

/-- The loop computes exactly the spec's double-sum formula. -/
theorem total_objective_eq_spec (r : OptResult) :
    total_objective r = specObjective r := by
  unfold total_objective specObjective
  rw [foldl_step_eq_sum, zero_add]

/-- The spill term splits off additively, gated exactly on the presence of
spill data. -/
theorem total_objective_split (r : OptResult) :
    total_objective r
      = baseObjective r + (if r.has_spill then spillObjective r else 0) := by
  rw [total_objective_eq_spec]
  unfold specObjective baseObjective spillObjective
  by_cases hsp : r.has_spill = true <;>
    simp only [hsp, if_true, if_false, Bool.false_eq_true]
  · rw [← List.sum_map_add]
    apply congrArg
    apply List.map_congr_left
    intro s _
    ring
  · simp only [add_zero]

/-! ### Example data used by the claim witnesses -/

def defaultStorageUnit : StorageUnit := ⟨"", false, 0, 0, 0, 0, 0⟩

def defaultLine : Line := ⟨"", "", "", 0, false⟩

/-- A storage unit whose identifier names both categories. -/
def phsHydroUnit : StorageUnit := ⟨"ZA0 0 PHS-hydro", true, 5, 5, 5, 5, 3⟩

/-- A storage unit whose identifier contains only lowercase `phs`. -/
def lowerPhsUnit : StorageUnit := ⟨"ZA0 0 phs", true, 5, 5, 5, 5, 3⟩

/-- A storage unit whose identifier contains only capitalised `Hydro`. -/
def capitalHydroUnit : StorageUnit := ⟨"ZA0 0 Hydro", true, 5, 5, 5, 5, 5⟩

/-- A small storage table exercising all three `max_hours` cases. -/
def exStorageTable : List StorageUnit :=
  [⟨"ZA0 0 PHS", true, 5, 5, 5, 5, 100⟩,
   ⟨"ZA0 1 hydro", true, 5, 5, 5, 5, 100⟩,
   ⟨"ZA0 2 battery", true, 5, 5, 5, 5, 100⟩]

/-! ### Claims C3 and C8: storage-parameter normalization -/

/-- Claim C3: after normalization every storage unit has
`cyclic_state_of_charge = false`, `marginal_cost = 0.01`,
`marginal_cost_storage = 0.01`, `spill_cost = 0.1` and
`efficiency_store = 0.866025`, unconditionally; `max_hours` becomes 8.0
when the identifier names the pumped-hydro category, else 6.0 when it
names the generic hydro category, else is left unmodified; and this holds
for any number of storage units, including zero (no-op). -/
theorem claim_C3_normalization_totality (us : List StorageUnit) :
    normalize_storage_units [] = ([] : List StorageUnit) ∧
    (normalize_storage_units us).length = us.length ∧
    ∀ i : ℕ, i < us.length →
      ((normalize_storage_units us).getD i defaultStorageUnit).cyclic_state_of_charge
          = false ∧
      ((normalize_storage_units us).getD i defaultStorageUnit).marginal_cost = 0.01 ∧
      ((normalize_storage_units us).getD i defaultStorageUnit).marginal_cost_storage
          = 0.01 ∧
      ((normalize_storage_units us).getD i defaultStorageUnit).spill_cost = 0.1 ∧
      ((normalize_storage_units us).getD i defaultStorageUnit).efficiency_store
          = 0.866025 ∧
      ((normalize_storage_units us).getD i defaultStorageUnit).max_hours
        = (if strContains (us.getD i defaultStorageUnit).name "PHS" then 8
           else if strContains (us.getD i defaultStorageUnit).name "hydro" then 6
           else (us.getD i defaultStorageUnit).max_hours) := by
  refine ⟨rfl, ?_, ?_⟩
  · rw [normalize_storage_units_eq_map, List.length_map]
  · intro i hi
    have hj : i < (us.map normalizeStorageUnit).length := by
      rw [List.length_map]; exact hi
    have hv : (normalize_storage_units us).getD i defaultStorageUnit
        = normalizeStorageUnit (us.getD i defaultStorageUnit) := by
      rw [normalize_storage_units_eq_map, List.getD_eq_getElem _ _ hj,
        List.getD_eq_getElem _ _ hi, List.getElem_map]
    rw [hv]
    set u := us.getD i defaultStorageUnit with hu
    by_cases h1 : strContains u.name "PHS" = true <;>
      by_cases h2 : strContains u.name "hydro" = true <;>
      simp [normalizeStorageUnit, h1, h2]

/-- Claim C3 witness: the theorem applied to the concrete three-unit table
at index 0. -/
theorem claim_C3_normalization_totality_witness :
    0 < exStorageTable.length ∧
    (((normalize_storage_units exStorageTable).getD 0
        defaultStorageUnit).cyclic_state_of_charge = false ∧
      ((normalize_storage_units exStorageTable).getD 0
        defaultStorageUnit).marginal_cost = 0.01 ∧
      ((normalize_storage_units exStorageTable).getD 0
        defaultStorageUnit).marginal_cost_storage = 0.01 ∧
      ((normalize_storage_units exStorageTable).getD 0
        defaultStorageUnit).spill_cost = 0.1 ∧
      ((normalize_storage_units exStorageTable).getD 0
        defaultStorageUnit).efficiency_store = 0.866025 ∧
      ((normalize_storage_units exStorageTable).getD 0
        defaultStorageUnit).max_hours
        = (if strContains (exStorageTable.getD 0 defaultStorageUnit).name "PHS"
           then 8
           else if strContains
              (exStorageTable.getD 0 defaultStorageUnit).name "hydro" then 6
           else (exStorageTable.getD 0 defaultStorageUnit).max_hours)) :=
  ⟨by decide,
   (claim_C3_normalization_totality exStorageTable).2.2 0 (by decide)⟩

/-- Claim C8: the `max_hours` category match is case-sensitive and
prioritized: 8.0 exactly when the identifier contains `'PHS'`, else 6.0
exactly when it contains `'hydro'`, else unmodified; a name containing
both substrings gets 8.0, and names like `'phs'` or `'Hydro'` match
neither category. -/
theorem claim_C8_case_sensitive_priority :
    (∀ u : StorageUnit, (normalizeStorageUnit u).max_hours
        = if strContains u.name "PHS" then 8
          else if strContains u.name "hydro" then 6 else u.max_hours) ∧
    strContains phsHydroUnit.name "PHS" = true ∧
    strContains phsHydroUnit.name "hydro" = true ∧
    (normalizeStorageUnit phsHydroUnit).max_hours = 8 ∧
    strContains lowerPhsUnit.name "phs" = true ∧
    (normalizeStorageUnit lowerPhsUnit).max_hours = lowerPhsUnit.max_hours ∧
    strContains capitalHydroUnit.name "Hydro" = true ∧
    (normalizeStorageUnit capitalHydroUnit).max_hours
      = capitalHydroUnit.max_hours := by
  refine ⟨?_, by decide, by decide, by decide, by decide, by decide, by decide,
    by decide⟩
  intro u
  by_cases h1 : strContains u.name "PHS" = true <;>
    by_cases h2 : strContains u.name "hydro" = true <;>
    simp [normalizeStorageUnit, h1, h2]

/-- A network with one artificial line (spec example scenario 1: endpoint
peaks 200 and 500) and one physical line. -/
def exNetFix : Network :=
  { buses := ["A", "B"]
    lines := [⟨"A<->B", "A", "B", 0, true⟩, ⟨"phys1", "A", "B", 250, true⟩]
    hasExtendableCol := true
    loads := [⟨"LA", "A"⟩, ⟨"LB", "B"⟩]
    loads_t_p_set := [("LA", [100, 200]), ("LB", [500, 300])]
    generators := []
    generators_t := []
    storage_units := [] }

/-- A network whose single keyword-matched line already has a capacity far
above the computed requirement. -/
def exNetC9 : Network :=
  { buses := ["A", "B"]
    lines := [⟨"artificial-link", "A", "B", 5000, true⟩]
    hasExtendableCol := true
    loads := []
    loads_t_p_set := []
    generators := []
    generators_t := []
    storage_units := [] }

/-- A network with no lines at all. -/
def exNetEmpty : Network :=
  { buses := ["A"]
    lines := []
    hasExtendableCol := false
    loads := []
    loads_t_p_set := []
    generators := []
    generators_t := []
    storage_units := [] }

/-! ### Claims C1 and C9: the capacity formula -/

/-- Claim C1: every detected synthetic line gets capacity exactly
`max(3.0 × max(peakDemand(bus0), peakDemand(bus1)), 1000)` and
extendability `false`; hence post-fix capacity is ≥ 1000 and ≥ 3× the
larger endpoint peak, and with both endpoint peaks zero it is exactly
1000. -/
theorem claim_C1_capacity_formula (n : Network)
    (hnd : (n.lines.map Line.name).Nodup)
    (i : ℕ) (hi : i < n.lines.length)
    (hart : (n.lines.getD i defaultLine).name ∈ artificialLineNames n) :
    let x := n.lines.getD i defaultLine
    let y := (fix_artificial_lines_reasonable n).lines.getD i defaultLine
    y.s_nom = max (3 * max (demandAt n x.bus0) (demandAt n x.bus1)) 1000 ∧
    y.s_nom_extendable = false ∧
    (1000 : ℚ) ≤ y.s_nom ∧
    3 * max (demandAt n x.bus0) (demandAt n x.bus1) ≤ y.s_nom ∧
    (demandAt n x.bus0 = 0 → demandAt n x.bus1 = 0 → y.s_nom = 1000) := by
  intro x y
  have hne : (artificialLineNames n).isEmpty = false := by
    cases harts : artificialLineNames n with
    | nil => rw [harts] at hart; cases hart
    | cons a t => rfl
  have hcl : fix_artificial_lines_reasonable n = { n with
      hasExtendableCol := true
      lines := n.lines.map (fixedLineShape (demandAt n)
        (artificialLineNames n) n.hasExtendableCol) } := by
    rw [fix_closed n hnd, hne]
    simp
  have hj : i < (n.lines.map (fixedLineShape (demandAt n)
      (artificialLineNames n) n.hasExtendableCol)).length := by
    rw [List.length_map]; exact hi
  have hy : y = fixedLineShape (demandAt n) (artificialLineNames n)
      n.hasExtendableCol x := by
    show (fix_artificial_lines_reasonable n).lines.getD i defaultLine = _
    rw [hcl]
    show (n.lines.map (fixedLineShape (demandAt n)
      (artificialLineNames n) n.hasExtendableCol)).getD i defaultLine = _
    rw [List.getD_eq_getElem _ _ hj, List.getElem_map,
      ← List.getD_eq_getElem _ _ hi]
  have hreq : y.s_nom = requiredCapacity (demandAt n) x := by
    rw [hy]; exact fixedLineShape_s_nom_mem _ _ _ _ hart
  have hform : requiredCapacity (demandAt n) x
      = max (3 * max (demandAt n x.bus0) (demandAt n x.bus1)) 1000 := by
    unfold requiredCapacity
    rw [mul_comm]
  refine ⟨by rw [hreq, hform], ?_, ?_, ?_, ?_⟩
  · rw [hy]; exact fixedLineShape_ext_mem _ _ _ _ hart
  · rw [hreq]; exact requiredCapacity_ge _ _
  · rw [hreq, hform]
    rw [mul_comm]
    exact le_max_left _ _
  · intro h0 h1
    rw [hreq, hform, h0, h1, max_self, mul_zero,
      max_eq_right (by norm_num : (0 : ℚ) ≤ 1000)]

/-- Claim C1 witness: the theorem applied to the concrete network at the
keyword-matched line. -/
theorem claim_C1_capacity_formula_witness :
    (exNetFix.lines.map Line.name).Nodup ∧ 0 < exNetFix.lines.length ∧
    (exNetFix.lines.getD 0 defaultLine).name ∈ artificialLineNames exNetFix ∧
    (let x := exNetFix.lines.getD 0 defaultLine
     let y := (fix_artificial_lines_reasonable exNetFix).lines.getD 0 defaultLine
     y.s_nom = max (3 * max (demandAt exNetFix x.bus0) (demandAt exNetFix x.bus1))
        1000 ∧
     y.s_nom_extendable = false ∧
     (1000 : ℚ) ≤ y.s_nom ∧
     3 * max (demandAt exNetFix x.bus0) (demandAt exNetFix x.bus1) ≤ y.s_nom ∧
     (demandAt exNetFix x.bus0 = 0 → demandAt exNetFix x.bus1 = 0 →
       y.s_nom = 1000)) :=
  ⟨by decide, by decide, by decide,
   claim_C1_capacity_formula exNetFix (by decide) 0 (by decide) (by decide)⟩

/-- Claim C9: the fixer overwrites a detected line's capacity
unconditionally; here a keyword-matched line with prior capacity 5000 is
decreased to the computed value 1000. -/
theorem claim_C9_unconditional_overwrite :
    isArtificialName "artificial-link" = true ∧
    exNetC9.lines.map Line.s_nom = [5000] ∧
    (fix_artificial_lines_reasonable exNetC9).lines.map Line.s_nom = [1000] ∧
    (1000 : ℚ) < 5000 := by
  refine ⟨by decide, by decide, ?_, by norm_num⟩
  have hnd : (exNetC9.lines.map Line.name).Nodup := by decide
  have hne : (artificialLineNames exNetC9).isEmpty = false := by decide
  have hmem : ("artificial-link" : String) ∈ artificialLineNames exNetC9 := by
    decide
  rw [fix_closed exNetC9 hnd, hne]
  simp only [Bool.false_eq_true, if_false]
  show (exNetC9.lines.map (fixedLineShape (demandAt exNetC9)
      (artificialLineNames exNetC9) exNetC9.hasExtendableCol)).map Line.s_nom
    = [1000]
  show [(fixedLineShape (demandAt exNetC9) (artificialLineNames exNetC9)
      exNetC9.hasExtendableCol ⟨"artificial-link", "A", "B", 5000, true⟩).s_nom]
    = [1000]
  rw [fixedLineShape_s_nom_mem _ _ _ _ hmem]
  show [max (max (0 : ℚ) 0 * 3) 1000] = [1000]
  rw [max_self, zero_mul, max_eq_right (by norm_num : (0 : ℚ) ≤ 1000)]

/-! ### Claims C5, C6 and C10: idempotence, detection priority, frame -/

/-- Claim C5: the Capacity Fixer is idempotent — applying it twice yields
the same line capacities and extendability flags (indeed the same network)
as applying it once. -/
theorem claim_C5_fixer_idempotent (n : Network)
    (hnd : (n.lines.map Line.name).Nodup) :
    fix_artificial_lines_reasonable (fix_artificial_lines_reasonable n)
      = fix_artificial_lines_reasonable n :=
  fix_idem_aux n hnd

/-- Claim C5 witness: idempotence at the concrete example network. -/
theorem claim_C5_fixer_idempotent_witness :
    (exNetFix.lines.map Line.name).Nodup ∧
    fix_artificial_lines_reasonable (fix_artificial_lines_reasonable exNetFix)
      = fix_artificial_lines_reasonable exNetFix :=
  ⟨by decide, claim_C5_fixer_idempotent exNetFix (by decide)⟩

/-- Claim C6: detection is a two-stage priority rule — keyword matches
take precedence; only when no line matches a keyword are the
zero-capacity lines selected; and when both stages find nothing the fixer
is a no-op, not an error. -/
theorem claim_C6_detection_priority (n : Network) :
    ((keywordLineNames n).isEmpty = false →
      artificialLineNames n = keywordLineNames n) ∧
    ((keywordLineNames n).isEmpty = true →
      artificialLineNames n = zeroCapacityLineNames n) ∧
    (keywordLineNames n = [] → zeroCapacityLineNames n = [] →
      fix_artificial_lines_reasonable n = n) ∧
    ∀ m : String, m ∈ keywordLineNames n ↔
      ∃ x ∈ n.lines, x.name = m ∧ isArtificialName x.name = true := by
  refine ⟨artificialLineNames_of_kw_nonempty n,
    artificialLineNames_of_kw_empty n, ?_, ?_⟩
  · intro h1 h2
    apply fix_of_no_artificial
    rw [artificialLineNames_of_kw_empty n (by rw [h1]; rfl), h2]
  · intro m
    constructor
    · intro hm
      obtain ⟨x, hx, rfl⟩ := List.mem_map.mp hm
      have hf := List.mem_filter.mp hx
      exact ⟨x, hf.1, rfl, hf.2⟩
    · rintro ⟨x, hx, rfl, hart⟩
      exact List.mem_map_of_mem _ (List.mem_filter.mpr ⟨hx, hart⟩)

/-- Claim C6 witness: a network with no lines at all — both detection
stages come up empty and the fixer is a no-op. -/
theorem claim_C6_detection_priority_witness :
    keywordLineNames exNetEmpty = [] ∧
    zeroCapacityLineNames exNetEmpty = [] ∧
    artificialLineNames exNetEmpty = zeroCapacityLineNames exNetEmpty ∧
    fix_artificial_lines_reasonable exNetEmpty = exNetEmpty :=
  ⟨rfl, rfl, (claim_C6_detection_priority exNetEmpty).2.1 rfl,
   (claim_C6_detection_priority exNetEmpty).2.2.1 rfl rfl⟩

/-- Claim C10: the fixer touches only `s_nom` and `s_nom_extendable` of
the detected lines: all other tables are unchanged, line names are
unchanged, a non-detected line keeps its `s_nom`, keeps its
`s_nom_extendable` when the flag column already exists (or when nothing
is detected), and gets `s_nom_extendable = false` only when the column is
newly created. -/
theorem claim_C10_frame_effect (n : Network)
    (hnd : (n.lines.map Line.name).Nodup) :
    (fix_artificial_lines_reasonable n).buses = n.buses ∧
    (fix_artificial_lines_reasonable n).loads = n.loads ∧
    (fix_artificial_lines_reasonable n).loads_t_p_set = n.loads_t_p_set ∧
    (fix_artificial_lines_reasonable n).generators = n.generators ∧
    (fix_artificial_lines_reasonable n).generators_t = n.generators_t ∧
    (fix_artificial_lines_reasonable n).storage_units = n.storage_units ∧
    (fix_artificial_lines_reasonable n).lines.length = n.lines.length ∧
    ∀ i : ℕ, i < n.lines.length →
      ((fix_artificial_lines_reasonable n).lines.getD i defaultLine).name
        = (n.lines.getD i defaultLine).name ∧
      ((n.lines.getD i defaultLine).name ∉ artificialLineNames n →
        ((fix_artificial_lines_reasonable n).lines.getD i defaultLine).s_nom
          = (n.lines.getD i defaultLine).s_nom ∧
        (n.hasExtendableCol = true →
          ((fix_artificial_lines_reasonable n).lines.getD i
              defaultLine).s_nom_extendable
            = (n.lines.getD i defaultLine).s_nom_extendable) ∧
        (artificialLineNames n = [] →
          ((fix_artificial_lines_reasonable n).lines.getD i
              defaultLine).s_nom_extendable
            = (n.lines.getD i defaultLine).s_nom_extendable) ∧
        (n.hasExtendableCol = false → artificialLineNames n ≠ [] →
          ((fix_artificial_lines_reasonable n).lines.getD i
              defaultLine).s_nom_extendable = false)) := by
  obtain ⟨hb, hl, hlt, hg, hgt, hs⟩ := fix_frame_fields n hnd
  have hlen : (fix_artificial_lines_reasonable n).lines.length
      = n.lines.length := by
    have h := congrArg List.length (fix_lines_names n hnd)
    simpa using h
  refine ⟨hb, hl, hlt, hg, hgt, hs, hlen, ?_⟩
  intro i hi
  by_cases hk : (artificialLineNames n).isEmpty = true
  · have h0 : artificialLineNames n = [] := List.isEmpty_iff.mp hk
    have hfx : fix_artificial_lines_reasonable n = n := fix_of_no_artificial n h0
    rw [hfx]
    exact ⟨rfl, fun _ => ⟨rfl, fun _ => rfl, fun _ => rfl,
      fun _ hne => absurd h0 hne⟩⟩
  · have hne : (artificialLineNames n).isEmpty = false := by simpa using hk
    have hcl : fix_artificial_lines_reasonable n = { n with
        hasExtendableCol := true
        lines := n.lines.map (fixedLineShape (demandAt n)
          (artificialLineNames n) n.hasExtendableCol) } := by
      rw [fix_closed n hnd, hne]
      simp
    have hj : i < (n.lines.map (fixedLineShape (demandAt n)
        (artificialLineNames n) n.hasExtendableCol)).length := by
      rw [List.length_map]; exact hi
    have hy : (fix_artificial_lines_reasonable n).lines.getD i defaultLine
        = fixedLineShape (demandAt n) (artificialLineNames n)
            n.hasExtendableCol (n.lines.getD i defaultLine) := by
      rw [hcl]
      show (n.lines.map (fixedLineShape (demandAt n)
        (artificialLineNames n) n.hasExtendableCol)).getD i defaultLine = _
      rw [List.getD_eq_getElem _ _ hj, List.getElem_map,
        ← List.getD_eq_getElem _ _ hi]
    rw [hy]
    refine ⟨fixedLineShape_name _ _ _ _, ?_⟩
    intro hnm
    refine ⟨fixedLineShape_s_nom_not_mem _ _ _ _ hnm, ?_, ?_, ?_⟩
    · intro hc
      rw [fixedLineShape_ext_not_mem _ _ _ _ hnm, hc]
      rfl
    · intro h0
      have : (artificialLineNames n).isEmpty = true := by rw [h0]; rfl
      rw [this] at hne
      cases hne
    · intro hc _
      rw [fixedLineShape_ext_not_mem _ _ _ _ hnm, hc]
      rfl

/-- Claim C10 witness: the frame properties at the concrete network, at
the non-detected physical line. -/
theorem claim_C10_frame_effect_witness :
    (exNetFix.lines.map Line.name).Nodup ∧ 1 < exNetFix.lines.length ∧
    (exNetFix.lines.getD 1 defaultLine).name ∉ artificialLineNames exNetFix ∧
    exNetFix.hasExtendableCol = true ∧
    (fix_artificial_lines_reasonable exNetFix).buses = exNetFix.buses ∧
    ((fix_artificial_lines_reasonable exNetFix).lines.getD 1 defaultLine).s_nom
      = (exNetFix.lines.getD 1 defaultLine).s_nom ∧
    ((fix_artificial_lines_reasonable exNetFix).lines.getD 1
        defaultLine).s_nom_extendable
      = (exNetFix.lines.getD 1 defaultLine).s_nom_extendable :=
  ⟨by decide, by decide, by decide, rfl,
   (claim_C10_frame_effect exNetFix (by decide)).1,
   (((claim_C10_frame_effect exNetFix (by decide)).2.2.2.2.2.2.2 1
      (by decide)).2 (by decide)).1,
   ((((claim_C10_frame_effect exNetFix (by decide)).2.2.2.2.2.2.2 1
      (by decide)).2 (by decide)).2.1 rfl)⟩

/-! ### Claim C4: offshore-wind pruning -/

/-- A network with one offshore-wind generator (capitalised, matching
case-insensitively) and one ordinary generator, both with time-series
columns. -/
def exNetPrune : Network :=
  { buses := ["A"]
    lines := []
    hasExtendableCol := false
    loads := []
    loads_t_p_set := []
    generators := [⟨"ZA0 Offwind-dc", 0, "PQ", "offwind-dc"⟩,
                   ⟨"ZA0 coal", 100, "Slack", "coal"⟩]
    generators_t := [("ZA0 Offwind-dc", [0, 0]), ("ZA0 coal", [50, 60])]
    storage_units := [] }

/-- Claim C4: every generator whose identifier contains `'offwind'`
case-insensitively is removed from the generator table and from every
time-series table keyed by generator identifier; no matching generator
remains; and with no match the step is a no-op. -/
theorem claim_C4_offshore_pruning (n : Network) :
    (∀ g ∈ n.generators, isOffwindName g.name = true →
      (∀ g2 ∈ (remove_offshore_wind n).generators, g2.name ≠ g.name) ∧
      (∀ c ∈ (remove_offshore_wind n).generators_t, c.1 ≠ g.name)) ∧
    (∀ g2 ∈ (remove_offshore_wind n).generators,
      isOffwindName g2.name = false) ∧
    ((∀ g ∈ n.generators, isOffwindName g.name = false) →
      remove_offshore_wind n = n) := by
  have hcl : remove_offshore_wind n = { n with
      generators := n.generators.filter
        (fun g => ¬g.name ∈ offwindGeneratorNames n)
      generators_t := n.generators_t.filter
        (fun c => ¬c.1 ∈ offwindGeneratorNames n) } :=
    foldl_removeGenerator_closed (offwindGeneratorNames n) n
  refine ⟨?_, ?_, ?_⟩
  · intro g hg hoff
    have hmem : g.name ∈ offwindGeneratorNames n :=
      List.mem_map_of_mem _ (List.mem_filter.mpr ⟨hg, hoff⟩)
    constructor
    · intro g2 hg2 heq
      rw [hcl] at hg2
      have h2 := List.of_mem_filter hg2
      simp only [decide_eq_true_eq] at h2
      exact h2 (by rw [heq]; exact hmem)
    · intro c hc heq
      rw [hcl] at hc
      have h2 := List.of_mem_filter hc
      simp only [decide_eq_true_eq] at h2
      exact h2 (by rw [heq]; exact hmem)
  · intro g2 hg2
    rw [hcl] at hg2
    have h1 := List.mem_of_mem_filter hg2
    have h2 := List.of_mem_filter hg2
    simp only [decide_eq_true_eq] at h2
    cases hoff : isOffwindName g2.name
    · rfl
    · exact absurd (List.mem_map_of_mem _ (List.mem_filter.mpr ⟨h1, hoff⟩)) h2
  · intro hnone
    have hofil : n.generators.filter (fun g => isOffwindName g.name) = [] := by
      rw [List.filter_eq_nil_iff]
      intro g hg
      rw [hnone g hg]
      simp
    have hoff0 : offwindGeneratorNames n = [] := by
      unfold offwindGeneratorNames
      rw [hofil]
      rfl
    unfold remove_offshore_wind
    rw [hoff0]
    rfl

/-- Claim C4 witness: pruning the concrete two-generator network removes
the offshore generator and its time-series column. -/
theorem claim_C4_offshore_pruning_witness :
    (exNetPrune.generators.getD 0 ⟨"", 0, "", ""⟩).name = "ZA0 Offwind-dc" ∧
    isOffwindName "ZA0 Offwind-dc" = true ∧
    (∀ g2 ∈ (remove_offshore_wind exNetPrune).generators,
      g2.name ≠ "ZA0 Offwind-dc") ∧
    (∀ c ∈ (remove_offshore_wind exNetPrune).generators_t,
      c.1 ≠ "ZA0 Offwind-dc") := by
  refine ⟨rfl, by decide, ?_, ?_⟩
  · exact ((claim_C4_offshore_pruning exNetPrune).1
      ⟨"ZA0 Offwind-dc", 0, "PQ", "offwind-dc"⟩ (by decide) (by decide)).1
  · exact ((claim_C4_offshore_pruning exNetPrune).1
      ⟨"ZA0 Offwind-dc", 0, "PQ", "offwind-dc"⟩ (by decide) (by decide)).2

/-! ### Claims C2 and C7: objective reconstruction -/

/-- Spec example scenario 3: two snapshots with weights 1 and 2, one
generator with marginal cost 10 and dispatch 5 then 7, no storage. -/
def exResultC2 : OptResult :=
  { snapshots := [⟨1, [5], [], [], []⟩, ⟨2, [7], [], [], []⟩]
    gen_marginal_cost := [10]
    storage_units := []
    has_spill := false }

/-- A result with one snapshot of weight 3 and no components at all. -/
def exResultEmpty : OptResult :=
  { snapshots := [⟨3, [], [], [], []⟩]
    gen_marginal_cost := []
    storage_units := []
    has_spill := true }

/-- A result with a storage unit, a large spill cost and nonzero recorded
spill values, but no spill table (`has_spill = false`). -/
def exResultC7 : OptResult :=
  { snapshots := [⟨2, [], [3], [4], [999]⟩]
    gen_marginal_cost := []
    storage_units := [⟨1, 2, 100⟩]
    has_spill := false }

/-- Claim C2: the reconstructed total equals the snapshot-weighted sum of
the per-component cost terms; with zero generators and zero storage units
it is 0; and on spec example scenario 3 it is 190. -/
theorem claim_C2_objective_formula (r : OptResult) :
    total_objective r = specObjective r ∧
    (r.gen_marginal_cost = [] → r.storage_units = [] →
      total_objective r = 0) ∧
    total_objective exResultC2 = 190 := by
  refine ⟨total_objective_eq_spec r, ?_, ?_⟩
  · intro hg hs
    rw [total_objective_eq_spec]
    unfold specObjective
    rw [hg, hs]
    simp [dotSum_nil]
  · norm_num [total_objective, snapshotStep, dotSum, exResultC2]

/-- Claim C2 witness: zero generators and zero storage units give total
0. -/
theorem claim_C2_objective_formula_witness :
    exResultEmpty.gen_marginal_cost = [] ∧
    exResultEmpty.storage_units = [] ∧
    total_objective exResultEmpty = 0 :=
  ⟨rfl, rfl, (claim_C2_objective_formula exResultEmpty).2.1 rfl rfl⟩

/-- Claim C7: the spill term is included exactly when the result set
contains spill data; with spill data absent it contributes 0 and its
absence is not an error, whatever the other storage attributes. -/
theorem claim_C7_spill_conditional (r : OptResult) :
    total_objective r
      = baseObjective r + (if r.has_spill then spillObjective r else 0) ∧
    (r.has_spill = false → total_objective r = baseObjective r) ∧
    (r.has_spill = true →
      total_objective r = baseObjective r + spillObjective r) ∧
    total_objective exResultC7 = 22 := by
  refine ⟨total_objective_split r, ?_, ?_, ?_⟩
  · intro h
    rw [total_objective_split r, h]
    simp
  · intro h
    rw [total_objective_split r, h]
    simp
  · norm_num [total_objective, snapshotStep, dotSum, exResultC7]

/-- Claim C7 witness: the concrete result with spill data absent — the
999-unit recorded spill and 100-unit spill cost contribute nothing. -/
theorem claim_C7_spill_conditional_witness :
    exResultC7.has_spill = false ∧
    total_objective exResultC7 = baseObjective exResultC7 :=
  ⟨rfl, (claim_C7_spill_conditional exResultC7).2.1 rfl⟩

end PypsaOpt
